import Mathlib

/-!
# Verification of the `periodic` tick-driven task engine

A shallow embedding, in Lean 4, of the Go package `periodic`
(`parametalol/periodic`): the combinators of `utils` (`Retry`,
`SimpleRetryPolicy`, `ExponentialBackoffPolicy`, `Seq`, `NoOverlap`),
the `TickLoop` select loop, and the `periodicTask` lifecycle object
(`Start` / `Stop` / `Error` / the supervising `loop` and `run`).

Pure Go functions become Lean functions; the concurrent parts
(`TickLoop`, `NoOverlap`, `periodicTask`) become labelled transition
systems whose steps mirror the atomic actions of the Go code
(channel operations, atomic compare-and-swap, mutex-guarded critical
sections), with goroutine interleaving represented by the
nondeterministic choice of the next step.
-/

set_option autoImplicit false

namespace Periodic

/-- Go `error` values that occur in this package: the `ErrStopped`
sentinel, the two context errors, and opaque task errors
(distinguished by a numeric code). `none : Option GoErr` is Go `nil`. -/
inductive GoErr : Type where
  | stopped
  | canceled
  | deadlineExceeded
  | generic (code : Nat)
  deriving DecidableEq, Repr

/-- The part of a `context.Context` the embedded code reads: `ctxErr`
is the value of `ctx.Err()` (`none` while the context is live), and
`attempt` is the value stored under the `AttemptNumber` key by
`context.WithValue` in `Retry` (`none` when the key is absent). -/
structure GoCtx : Type where
  ctxErr : Option GoErr := none
  attempt : Option Nat := none
  deriving DecidableEq, Repr

/-- `context.WithValue(ctx, AttemptNumber, i)`. -/
def GoCtx.withAttempt (ctx : GoCtx) (i : Nat) : GoCtx :=
  { ctx with attempt := some i }

/-- `errors.Is(err, ErrStopped)` for the errors of this package
(`ErrStopped` is a leaf error, so the check is equality; `nil` is
never `ErrStopped`). -/
def isStopped : Option GoErr → Bool
  | some .stopped => true
  | _ => false

/-- Go `type RetryPolicy func(context.Context, int, error) bool`. -/
def RetryPolicy : Type := GoCtx → Nat → Option GoErr → Bool

/-- A canonical task function after `Adapt`: Go
`func(context.Context, TickType) error`, over an arbitrary tick type. -/
def TaskFn (τ : Type) : Type := GoCtx → τ → Option GoErr

/-- `SimpleRetryPolicy(attempts)` from `utils`:
`return i < attempts-1 && err != nil && ctx.Err() == nil`
(Go `int` arithmetic; no overflow can occur at these magnitudes). -/
def SimpleRetryPolicy (attempts : Int) : RetryPolicy :=
  fun ctx i err =>
    decide ((i : Int) < attempts - 1) && err.isSome && ctx.ctxErr.isNone

/-- `ExponentialBackoffPolicy(attempts, duration)` from `utils`.  The
Go function sleeps for `time.Duration(i+1) * duration` as a side
effect before returning `i < attempts-1`; the embedding returns the
pair (decision, nanoseconds slept), with `0` slept on the
no-sleep path:

```go
if err != nil && ctx.Err() == nil {
    time.Sleep(time.Duration(i+1) * duration)
    return i < attempts-1
}
return false
``` -/
def ExponentialBackoffPolicy (attempts : Int) (duration : Int) :
    GoCtx → Nat → Option GoErr → Bool × Int :=
  fun ctx i err =>
    if err.isSome && ctx.ctxErr.isNone then
      (decide ((i : Int) < attempts - 1), ((i : Int) + 1) * duration)
    else
      (false, 0)

/-- One recorded action of a `Retry` run: the task was called with a
given context, or the policy was consulted with a given context,
attempt index and error. -/
inductive RetryEvent : Type where
  | taskCall (ctx : GoCtx)
  | policyCall (ctx : GoCtx) (i : Nat) (err : Option GoErr)
  deriving DecidableEq, Repr

/-- The loop body of `Retry` from `utils`, fuel-indexed (the Go loop
has no bound; `none` means the fuel ran out before the loop broke).
Mirrors

```go
for i := 0; ; i++ {
    ctx = context.WithValue(ctx, AttemptNumber, i)
    err = adaptedTask(ctx, tick)
    if errors.Is(err, ErrStopped) || !policy(ctx, i, err) {
        break
    }
}
return err
```

and additionally records the sequence of task calls and policy
consultations (note the short-circuit: on the sentinel the policy is
not consulted). -/
def retryLoop {τ : Type} (policy : RetryPolicy) (task : TaskFn τ)
    (ctx : GoCtx) (tick : τ) :
    Nat → Nat → Option (Option GoErr × List RetryEvent)
  | _, 0 => none
  | i, fuel + 1 =>
    if isStopped (task (ctx.withAttempt i) tick) then
      some (task (ctx.withAttempt i) tick, [.taskCall (ctx.withAttempt i)])
    else if policy (ctx.withAttempt i) i (task (ctx.withAttempt i) tick) then
      match retryLoop policy task ctx tick (i + 1) fuel with
      | none => none
      | some (r, evs) =>
        some (r, .taskCall (ctx.withAttempt i) ::
          .policyCall (ctx.withAttempt i) i (task (ctx.withAttempt i) tick) :: evs)
    else
      some (task (ctx.withAttempt i) tick,
        [.taskCall (ctx.withAttempt i),
         .policyCall (ctx.withAttempt i) i (task (ctx.withAttempt i) tick)])

/-- `Retry(policy, task)` from `utils`, applied to a context and a
tick, with the given fuel. -/
def Retry {τ : Type} (policy : RetryPolicy) (task : TaskFn τ)
    (ctx : GoCtx) (tick : τ) (fuel : Nat) :
    Option (Option GoErr × List RetryEvent) :=
  retryLoop policy task ctx tick 0 fuel

/-- The contexts with which the task was called during a `Retry` run,
in order. -/
def taskCallCtxs : List RetryEvent → List GoCtx
  | [] => []
  | .taskCall c :: evs => c :: taskCallCtxs evs
  | .policyCall _ _ _ :: evs => taskCallCtxs evs

/-- The `Seq(tasks...)` loop from `utils.go`, instrumented with the
number of tasks actually invoked:

```go
for _, task := range tasks {
    if err := task(ctx); err != nil {
        return err
    }
}
return nil
``` -/
def seqRun (tasks : List (GoCtx → Option GoErr)) (ctx : GoCtx) :
    Option GoErr × Nat :=
  match tasks with
  | [] => (none, 0)
  | t :: ts =>
    match t ctx with
    | some e => (some e, 1)
    | none =>
      let r := seqRun ts ctx
      (r.1, r.2 + 1)

/-- `Seq(tasks...)` from `utils.go`: the returned error alone. -/
def Seq (tasks : List (GoCtx → Option GoErr)) (ctx : GoCtx) :
    Option GoErr :=
  (seqRun tasks ctx).1

/-! ## Claims C5 and C6: `Retry` -/

lemma isStopped_of_ne {e : GoErr} (he : e ≠ .stopped) :
    isStopped (some e) = false := by
  cases e
  · exact absurd rfl he
  all_goals rfl

lemma retryLoop_constFail {τ : Type} (k : Nat) (ctx : GoCtx) (tick : τ)
    (hctx : ctx.ctxErr = none) (e : GoErr) (he : e ≠ .stopped) :
    ∀ fuel j, j < k → k - j ≤ fuel →
      ∃ evs,
        retryLoop (SimpleRetryPolicy (k : Int)) (fun _ _ => some e) ctx tick j fuel
            = some (some e, evs) ∧
          (taskCallCtxs evs).length = k - j := by
  intro fuel
  induction fuel with
  | zero => intro j hj hle; omega
  | succ fuel ih =>
    intro j hj hle
    have hst := isStopped_of_ne he
    have hcn : (ctx.withAttempt j).ctxErr = none := hctx
    by_cases hcase : j + 1 < k
    · have hpol : SimpleRetryPolicy (k : Int) (ctx.withAttempt j) j (some e) = true := by
        simp only [SimpleRetryPolicy, hcn, Option.isSome_some, Option.isNone_none,
          Bool.and_true, decide_eq_true_eq]
        omega
      obtain ⟨evs, heq, hlen⟩ := ih (j + 1) hcase (by omega)
      refine ⟨.taskCall (ctx.withAttempt j) ::
        .policyCall (ctx.withAttempt j) j (some e) :: evs, ?_, ?_⟩
      · simp only [retryLoop, hst, hpol, heq, if_true, if_false, Bool.false_eq_true]
      · simp only [taskCallCtxs, List.length_cons, hlen]
        omega
    · have hpol : SimpleRetryPolicy (k : Int) (ctx.withAttempt j) j (some e) = false := by
        simp only [SimpleRetryPolicy, hcn, Option.isSome_some, Option.isNone_none,
          Bool.and_true, Bool.and_eq_false_imp, decide_eq_false_iff_not]
        intro
        omega
      refine ⟨[.taskCall (ctx.withAttempt j),
        .policyCall (ctx.withAttempt j) j (some e)], ?_, ?_⟩
      · simp only [retryLoop, hst, hpol, if_false, Bool.false_eq_true]
      · simp only [taskCallCtxs, List.length_cons, List.length_nil]
        omega

/-- **C5.** With an uncancelled context, `Retry(SimpleRetryPolicy(k), fn)`
applied to an `fn` that always returns the same non-nil, non-sentinel
error calls `fn` exactly `k` times (for any `k ≥ 1`) and returns that
error; applied to an `fn` that always returns nil it calls it exactly
once and returns nil.  (`fuel` bounds the unrolling of the Go `for`
loop; any `fuel ≥ k` suffices, and the result does not depend on it.) -/
theorem retry_simplePolicy_counts {τ : Type} (k : Nat) (hk : 1 ≤ k)
    (ctx : GoCtx) (hctx : ctx.ctxErr = none) (tick : τ)
    (e : GoErr) (he : e ≠ .stopped) (fuel : Nat) (hfuel : k ≤ fuel) :
    (∃ evs,
      Retry (SimpleRetryPolicy (k : Int)) (fun _ _ => some e) ctx tick fuel
          = some (some e, evs) ∧
        (taskCallCtxs evs).length = k) ∧
    (∀ fuel', 1 ≤ fuel' →
      ∃ evs,
        Retry (SimpleRetryPolicy (k : Int)) (fun _ _ => none) ctx tick fuel'
            = some (none, evs) ∧
          (taskCallCtxs evs).length = 1) := by
  constructor
  · obtain ⟨evs, heq, hlen⟩ :=
      retryLoop_constFail k ctx tick hctx e he fuel 0 (by omega) (by omega)
    exact ⟨evs, heq, by omega⟩
  · intro fuel' hfuel'
    obtain ⟨fuel'', rfl⟩ : ∃ m, fuel' = m + 1 := ⟨fuel' - 1, by omega⟩
    refine ⟨[.taskCall (ctx.withAttempt 0),
      .policyCall (ctx.withAttempt 0) 0 none], ?_, rfl⟩
    simp only [Retry, retryLoop, isStopped, SimpleRetryPolicy, Option.isSome_none,
      Bool.and_false, Bool.false_and, if_false, Bool.false_eq_true]

theorem retry_simplePolicy_counts_witness :
    (∃ evs,
      Retry (SimpleRetryPolicy ((2 : Nat) : Int))
          (fun _ _ => some (.generic 7)) ({} : GoCtx) (0 : Nat) 2
          = some (some (.generic 7), evs) ∧
        (taskCallCtxs evs).length = 2) ∧
    (∀ fuel', 1 ≤ fuel' →
      ∃ evs,
        Retry (SimpleRetryPolicy ((2 : Nat) : Int)) (fun _ _ => none)
            ({} : GoCtx) (0 : Nat) fuel'
            = some (none, evs) ∧
          (taskCallCtxs evs).length = 1) :=
  retry_simplePolicy_counts 2 (by decide) {} rfl 0 (.generic 7) (by decide) 2
    (by decide)

lemma retryLoop_spec {τ : Type} (policy : RetryPolicy) (task : TaskFn τ)
    (ctx : GoCtx) (tick : τ) :
    ∀ (fuel i : Nat) (err : Option GoErr) (evs : List RetryEvent),
      retryLoop policy task ctx tick i fuel = some (err, evs) →
      ∃ n, 1 ≤ n ∧
        taskCallCtxs evs = (List.range' i n).map ctx.withAttempt ∧
        err = task (ctx.withAttempt (i + n - 1)) tick ∧
        (∀ j, j < n - 1 →
          isStopped (task (ctx.withAttempt (i + j)) tick) = false ∧
          policy (ctx.withAttempt (i + j)) (i + j)
            (task (ctx.withAttempt (i + j)) tick) = true) ∧
        (∀ c m e', RetryEvent.policyCall c m e' ∈ evs →
          c = ctx.withAttempt m ∧ e' = task c tick ∧ i ≤ m ∧
          (m < i + n - 1 ∨ (m = i + n - 1 ∧ isStopped err = false))) ∧
        (isStopped err = false →
          policy (ctx.withAttempt (i + n - 1)) (i + n - 1) err = false) := by
  intro fuel
  induction fuel with
  | zero => intro i err evs h; simp [retryLoop] at h
  | succ fuel ih =>
    intro i err evs h
    by_cases hstop : isStopped (task (ctx.withAttempt i) tick) = true
    · simp only [retryLoop, hstop, if_true, Option.some.injEq, Prod.mk.injEq] at h
      obtain ⟨herr, hevs⟩ := h
      refine ⟨1, le_refl 1, ?_, ?_, ?_, ?_, ?_⟩
      · simp [← hevs, taskCallCtxs, List.range']
      · rw [Nat.add_sub_cancel]
        exact herr.symm
      · intro j hj; omega
      · intro c m e' hm
        rw [← hevs] at hm
        simp at hm
      · intro hne
        rw [herr] at hstop
        rw [hstop] at hne
        simp at hne
    · replace hstop : isStopped (task (ctx.withAttempt i) tick) = false :=
        Bool.eq_false_iff.mpr hstop
      by_cases hpol : policy (ctx.withAttempt i) i (task (ctx.withAttempt i) tick) = true
      · cases hrec : retryLoop policy task ctx tick (i + 1) fuel with
        | none =>
          rw [retryLoop, hstop, hpol] at h
          simp only [Bool.false_eq_true, if_false, if_true, hrec] at h
          exact Option.noConfusion h
        | some pr =>
          obtain ⟨r, evs'⟩ := pr
          rw [retryLoop, hstop, hpol] at h
          simp only [Bool.false_eq_true, if_false, if_true, hrec,
            Option.some.injEq, Prod.mk.injEq] at h
          obtain ⟨herr, hevs⟩ := h
          obtain ⟨n', hn', htask, herr', hloop, hmem, hfinal⟩ :=
            ih (i + 1) r evs' hrec
          have ha1 : i + 1 + n' - 1 = i + n' := by omega
          have ha2 : i + (n' + 1) - 1 = i + n' := by omega
          refine ⟨n' + 1, by omega, ?_, ?_, ?_, ?_, ?_⟩
          · rw [← hevs]
            simp only [taskCallCtxs, htask, List.range'_succ, List.map_cons]
          · rw [← herr, herr', ha1, ha2]
          · intro j hj
            cases j with
            | zero => exact ⟨by simpa using hstop, by simpa using hpol⟩
            | succ j' =>
              have h' := hloop j' (by omega)
              rw [show i + 1 + j' = i + (j' + 1) from by omega] at h'
              exact h'
          · intro c m e' hm
            rw [← hevs] at hm
            simp only [List.mem_cons] at hm
            rcases hm with hm | hm | hm
            · exact absurd hm (by simp)
            · obtain ⟨hc, hmi, he'⟩ := RetryEvent.policyCall.inj hm
              rw [hc, hmi]
              exact ⟨rfl, he', le_refl _, Or.inl (by omega)⟩
            · obtain ⟨hc, he', him, hb⟩ := hmem c m e' hm
              rw [← herr]
              refine ⟨hc, he', by omega, ?_⟩
              rcases hb with hb | ⟨hb, hs⟩
              · exact Or.inl (by omega)
              · exact Or.inr ⟨by omega, hs⟩
          · intro hne
            rw [← herr] at hne ⊢
            have := hfinal hne
            rw [ha1] at this
            rw [ha2]
            exact this
      · replace hpol :
            policy (ctx.withAttempt i) i (task (ctx.withAttempt i) tick) = false :=
          Bool.eq_false_iff.mpr hpol
        rw [retryLoop, hstop, hpol] at h
        simp only [Bool.false_eq_true, if_false, Option.some.injEq,
          Prod.mk.injEq] at h
        obtain ⟨herr, hevs⟩ := h
        refine ⟨1, le_refl 1, ?_, ?_, ?_, ?_, ?_⟩
        · simp [← hevs, taskCallCtxs, List.range']
        · rw [Nat.add_sub_cancel]
          exact herr.symm
        · intro j hj; omega
        · intro c m e' hm
          rw [← hevs] at hm
          simp only [List.mem_cons, List.not_mem_nil, or_false] at hm
          rcases hm with hm | hm
          · exact absurd hm (by simp)
          · obtain ⟨hc, hmi, he'⟩ := RetryEvent.policyCall.inj hm
            rw [hc, hmi]
            refine ⟨rfl, he', le_refl _, Or.inr ⟨by omega, ?_⟩⟩
            rw [← herr]
            exact hstop
        · intro
          rw [Nat.add_sub_cancel, ← herr]
          exact hpol

/-- **C6.** Characterization of every terminating `Retry` run: the
task is called `n ≥ 1` times, the `j`-th call receiving the context
with the zero-based attempt index `j` attached; the returned error is
the last error observed; for every attempt before the last, the task's
error was not the stopped sentinel and the policy returned true for
(context, attempt index, error); the policy is consulted only with the
attempt's own context, index and error, and never for the final
attempt when that attempt returned the stopped sentinel (the sentinel
returns immediately); and when the final error is not the sentinel,
the loop stopped because the policy returned false. -/
theorem retry_characterization {τ : Type} (policy : RetryPolicy)
    (task : TaskFn τ) (ctx : GoCtx) (tick : τ) (fuel : Nat)
    (err : Option GoErr) (evs : List RetryEvent)
    (h : Retry policy task ctx tick fuel = some (err, evs)) :
    ∃ n, 1 ≤ n ∧
      taskCallCtxs evs = (List.range n).map ctx.withAttempt ∧
      err = task (ctx.withAttempt (n - 1)) tick ∧
      (∀ j, j + 1 < n →
        isStopped (task (ctx.withAttempt j) tick) = false ∧
        policy (ctx.withAttempt j) j (task (ctx.withAttempt j) tick) = true) ∧
      (∀ c m e', RetryEvent.policyCall c m e' ∈ evs →
        c = ctx.withAttempt m ∧ e' = task c tick ∧
        (m + 1 < n ∨ (m + 1 = n ∧ isStopped err = false))) ∧
      (isStopped err = false →
        policy (ctx.withAttempt (n - 1)) (n - 1) err = false) := by
  obtain ⟨n, hn, htask, herr, hloop, hmem, hfinal⟩ :=
    retryLoop_spec policy task ctx tick fuel 0 err evs h
  rw [show (0 : Nat) + n - 1 = n - 1 from by omega] at herr hfinal
  refine ⟨n, hn, ?_, herr, ?_, ?_, hfinal⟩
  · rw [htask, List.range_eq_range']
  · intro j hj
    have h' := hloop j (by omega)
    rw [show (0 : Nat) + j = j from by omega] at h'
    exact h'
  · intro c m e' hm
    obtain ⟨hc, he', _, hb⟩ := hmem c m e' hm
    refine ⟨hc, he', ?_⟩
    rcases hb with hb | ⟨hb, hs⟩
    · exact Or.inl (by omega)
    · exact Or.inr ⟨by omega, hs⟩

/-- A two-attempt retry policy used to witness the `Retry`
characterization. -/
def retryDemoPolicy : RetryPolicy := fun _ i _ => decide (i < 1)

/-- An always-failing task used to witness the `Retry`
characterization. -/
def retryDemoTask : TaskFn Nat := fun _ _ => some (.generic 0)

/-- The event log of `Retry retryDemoPolicy retryDemoTask {} 0` with
fuel 3: two attempts, each consulting the policy. -/
def retryDemoEvents : List RetryEvent :=
  [.taskCall ⟨none, some 0⟩,
   .policyCall ⟨none, some 0⟩ 0 (some (.generic 0)),
   .taskCall ⟨none, some 1⟩,
   .policyCall ⟨none, some 1⟩ 1 (some (.generic 0))]

theorem retry_characterization_witness :
    ∃ n, 1 ≤ n ∧
      taskCallCtxs retryDemoEvents
          = (List.range n).map (GoCtx.withAttempt {}) ∧
      some (.generic 0) = retryDemoTask (GoCtx.withAttempt {} (n - 1)) 0 ∧
      (∀ j, j + 1 < n →
        isStopped (retryDemoTask (GoCtx.withAttempt {} j) 0) = false ∧
        retryDemoPolicy (GoCtx.withAttempt {} j) j
          (retryDemoTask (GoCtx.withAttempt {} j) 0) = true) ∧
      (∀ c m e', RetryEvent.policyCall c m e' ∈ retryDemoEvents →
        c = GoCtx.withAttempt {} m ∧ e' = retryDemoTask c 0 ∧
        (m + 1 < n ∨ (m + 1 = n ∧ isStopped (some (.generic 0)) = false))) ∧
      (isStopped (some (.generic 0)) = false →
        retryDemoPolicy (GoCtx.withAttempt {} (n - 1)) (n - 1)
          (some (.generic 0)) = false) :=
  retry_characterization retryDemoPolicy retryDemoTask {} 0 3
    (some (.generic 0)) retryDemoEvents (by decide)

/-! ## Claim C7: `Seq` -/

lemma seqRun_all_nil (ctx : GoCtx) :
    ∀ tasks : List (GoCtx → Option GoErr),
      (∀ t ∈ tasks, t ctx = none) →
      seqRun tasks ctx = (none, tasks.length) := by
  intro tasks
  induction tasks with
  | nil => intro; rfl
  | cons t ts ih =>
    intro h
    have ht : t ctx = none := h t (List.mem_cons_self t ts)
    have := ih fun u hu => h u (List.mem_cons_of_mem t hu)
    simp only [seqRun, ht, this, List.length_cons]

lemma seqRun_first_err (ctx : GoCtx) :
    ∀ (tasks : List (GoCtx → Option GoErr)) (j : Nat) (hj : j < tasks.length)
      (e : GoErr),
      (∀ l (hl : l < j), tasks.get ⟨l, by omega⟩ ctx = none) →
      tasks.get ⟨j, hj⟩ ctx = some e →
      seqRun tasks ctx = (some e, j + 1) := by
  intro tasks
  induction tasks with
  | nil => intro j hj; simp at hj
  | cons t ts ih =>
    intro j hj e hbefore hat
    cases j with
    | zero =>
      simp only [List.get] at hat
      simp only [seqRun, hat]
    | succ j' =>
      have ht : t ctx = none := hbefore 0 (Nat.succ_pos j')
      have hj' : j' < ts.length := by simpa using hj
      have hat' : ts.get ⟨j', hj'⟩ ctx = some e := hat
      have hbefore' : ∀ l (hl : l < j'), ts.get ⟨l, Nat.lt_trans hl hj'⟩ ctx = none :=
        fun l hl => hbefore (l + 1) (Nat.succ_lt_succ hl)
      simp only [seqRun, ht, ih j' hj' e hbefore' hat']

/-- **C7.** `Seq` runs its tasks in order on the same context, stops
at and returns the first non-nil error (the count of invoked tasks is
the index of the failing task plus one, so later tasks never run), and
returns nil after invoking all tasks when none fails; for
`Seq(a, b)`: when `a` fails `b` never runs, and when `a` succeeds both
run in order and `b`'s result is returned. -/
theorem seq_first_error (ctx : GoCtx) :
    (∀ tasks : List (GoCtx → Option GoErr),
      (∀ t ∈ tasks, t ctx = none) →
      seqRun tasks ctx = (none, tasks.length)) ∧
    (∀ (tasks : List (GoCtx → Option GoErr)) (j : Nat) (hj : j < tasks.length)
      (e : GoErr),
      (∀ l (hl : l < j), tasks.get ⟨l, by omega⟩ ctx = none) →
      tasks.get ⟨j, hj⟩ ctx = some e →
      seqRun tasks ctx = (some e, j + 1)) ∧
    (∀ (a b : GoCtx → Option GoErr) (e : GoErr),
      a ctx = some e → seqRun [a, b] ctx = (some e, 1)) ∧
    (∀ a b : GoCtx → Option GoErr,
      a ctx = none → seqRun [a, b] ctx = (b ctx, 2)) := by
  refine ⟨seqRun_all_nil ctx, seqRun_first_err ctx, ?_, ?_⟩
  · intro a b e ha
    simp only [seqRun, ha]
  · intro a b ha
    simp only [seqRun, ha]
    cases b ctx
    all_goals rfl

theorem seq_first_error_witness :
    (seqRun [] ({} : GoCtx) = (none, 0)) ∧
    (seqRun [fun _ => none, fun _ => some (.generic 3)] ({} : GoCtx)
        = (some (.generic 3), 2)) ∧
    (seqRun [fun _ => some (.generic 4), fun _ => none] ({} : GoCtx)
        = (some (.generic 4), 1)) := by
  refine ⟨(seq_first_error {}).1 [] (by intro t ht; simp at ht), ?_, ?_⟩
  · exact (seq_first_error {}).2.1 [fun _ => none, fun _ => some (.generic 3)]
      1 (by decide) (.generic 3)
      (fun l hl => by interval_cases l; rfl) rfl
  · exact (seq_first_error {}).2.2.1 (fun _ => some (.generic 4)) (fun _ => none)
      (.generic 4) rfl

/-! ## Claim C10: `ExponentialBackoffPolicy` -/

/-- **C10.** When the reported error is non-nil and the context is
not cancelled, `ExponentialBackoffPolicy(attempts, d)` sleeps for
exactly `(i+1)*d` — linear in the attempt index `i` (consecutive
sleeps differ by the constant `d`), not exponential despite the
name — and returns true iff `i < attempts-1`; when the error is nil
or the context is cancelled it returns false without sleeping. -/
theorem exponentialBackoff_linear (attempts d : Int) (i : Nat) (ctx : GoCtx)
    (err : Option GoErr) :
    (err ≠ none → ctx.ctxErr = none →
      ExponentialBackoffPolicy attempts d ctx i err
          = (decide ((i : Int) < attempts - 1), ((i : Int) + 1) * d) ∧
        ((ExponentialBackoffPolicy attempts d ctx i err).1 = true ↔
          (i : Int) < attempts - 1) ∧
        (ExponentialBackoffPolicy attempts d ctx (i + 1) err).2 -
          (ExponentialBackoffPolicy attempts d ctx i err).2 = d) ∧
    (err = none ∨ ctx.ctxErr ≠ none →
      ExponentialBackoffPolicy attempts d ctx i err = (false, 0)) := by
  constructor
  · intro herr hctx
    have hs : err.isSome = true := Option.isSome_iff_ne_none.mpr herr
    have hn : ctx.ctxErr.isNone = true := by simp [hctx]
    refine ⟨?_, ?_, ?_⟩
    · simp only [ExponentialBackoffPolicy, hs, hn, Bool.and_self, if_true]
    · simp only [ExponentialBackoffPolicy, hs, hn, Bool.and_self, if_true,
        decide_eq_true_eq]
    · simp only [ExponentialBackoffPolicy, hs, hn, Bool.and_self, if_true]
      push_cast
      ring
  · intro h
    have : (err.isSome && ctx.ctxErr.isNone) = false := by
      rcases h with h | h
      · simp [h]
      · cases hc : ctx.ctxErr with
        | none => exact absurd hc h
        | some v => simp [hc]
    simp only [ExponentialBackoffPolicy, this, if_false, Bool.false_eq_true]

theorem exponentialBackoff_linear_witness :
    (ExponentialBackoffPolicy 3 5 ({} : GoCtx) 1 (some (.generic 0))
        = (true, 10)) ∧
    (ExponentialBackoffPolicy 3 5 ({} : GoCtx) 1 none = (false, 0)) := by
  constructor
  · have h := (exponentialBackoff_linear 3 5 1 {} (some (.generic 0))).1
      (by simp) rfl
    rw [h.1]
    decide
  · exact (exponentialBackoff_linear 3 5 1 {} none).2 (Or.inl rfl)

/-! ## Claim C8: `NoOverlap`

`NoOverlap` wraps the task with an `atomic.Int32` flag:

```go
var running atomic.Int32
return func(ctx context.Context, tick TickType) error {
    if !running.CompareAndSwap(0, 1) {
        return nil
    }
    defer running.Store(0)
    return adaptedTask(ctx, tick)
}
```

Concurrent callers are modelled by their phase alone (they are
symmetric, so the state keeps counts): `nStart` callers are about to
execute the compare-and-swap, `nRunning` are inside the wrapped task,
`nSkipped` returned nil without calling the task after a failed
compare-and-swap, `nDone` completed a call of the task (releasing the
flag on the way out, as the `defer` guarantees). -/

structure NOState : Type where
  flag : Int
  nStart : Nat
  nRunning : Nat
  nSkipped : Nat
  nDone : Nat
  deriving DecidableEq, Repr

/-- One atomic action of some caller of the `NoOverlap`-wrapped
function: a successful `CompareAndSwap(0, 1)` (the caller enters the
wrapped task), a failed one (the caller returns nil, never calling the
task), or the task returning with the deferred `running.Store(0)`. -/
inductive NOStep : NOState → NOState → Prop where
  | casWin (s : NOState) : s.nStart ≠ 0 → s.flag = 0 →
      NOStep s { s with flag := 1, nStart := s.nStart - 1,
                        nRunning := s.nRunning + 1 }
  | casLose (s : NOState) : s.nStart ≠ 0 → s.flag ≠ 0 →
      NOStep s { s with nStart := s.nStart - 1,
                        nSkipped := s.nSkipped + 1 }
  | finish (s : NOState) : s.nRunning ≠ 0 →
      NOStep s { s with flag := 0, nRunning := s.nRunning - 1,
                        nDone := s.nDone + 1 }

/-- `n` concurrent callers, none yet started, flag clear. -/
def NOInit (n : Nat) : NOState := ⟨0, n, 0, 0, 0⟩

/-- States reachable by interleaving callers of one
`NoOverlap`-wrapped function. -/
def NOReach (n : Nat) (s : NOState) : Prop :=
  Relation.ReflTransGen NOStep (NOInit n) s

/-- **C8.** The `NoOverlap` flag is a correct one-shot in-flight
guard: in every reachable state the flag is 0 or 1, it is 1 exactly
while a caller is inside the wrapped task, and at most one caller is
ever inside it; a caller enters the task only by the successful
test-and-set (flag observed 0, set to 1), the flag is cleared on every
completion path, and a caller skips (returning nil with the task not
invoked — the running and done counts are unchanged) only when the
flag was observed set. -/
theorem noOverlap_single_flight :
    (∀ n s, NOReach n s →
      (s.flag = 0 ∨ s.flag = 1) ∧ (s.flag = 1 ↔ s.nRunning = 1) ∧
        s.nRunning ≤ 1) ∧
    (∀ s s', NOStep s s' → s.nRunning < s'.nRunning →
      s.flag = 0 ∧ s'.flag = 1) ∧
    (∀ s s', NOStep s s' → s'.nRunning < s.nRunning → s'.flag = 0) ∧
    (∀ s s', NOStep s s' → s.nSkipped < s'.nSkipped →
      s.flag ≠ 0 ∧ s'.nRunning = s.nRunning ∧ s'.nDone = s.nDone) := by
  refine ⟨?_, ?_, ?_, ?_⟩
  · intro n s h
    induction h with
    | refl => simp [NOInit]
    | tail _ step ih =>
      obtain ⟨hf, hiff, hle⟩ := ih
      cases step with
      | casWin hs hflag =>
        rename_i t _
        have h0 : t.nRunning = 0 := by
          by_contra hne
          have h1' := hiff.mpr (by omega)
          omega
        exact ⟨Or.inr rfl, by simp [h0], by simp [h0]⟩
      | casLose hs hflag =>
        exact ⟨hf, hiff, hle⟩
      | finish hr =>
        rename_i t _
        refine ⟨Or.inl rfl, ?_, by simp; omega⟩
        constructor
        · intro h
          simp at h
        · intro h
          simp at h
          omega
  · intro s s' step hlt
    cases step with
    | casWin hs hflag => exact ⟨hflag, rfl⟩
    | casLose hs hflag => simp at hlt
    | finish hr => simp at hlt; omega
  · intro s s' step hlt
    cases step with
    | casWin hs hflag => simp at hlt
    | casLose hs hflag => simp at hlt
    | finish hr => rfl
  · intro s s' step hlt
    cases step with
    | casWin hs hflag => simp at hlt
    | casLose hs hflag => exact ⟨hflag, rfl, rfl⟩
    | finish hr => simp at hlt

theorem noOverlap_single_flight_witness :
    (((NOInit 2).flag = 0 ∨ (NOInit 2).flag = 1) ∧
      ((NOInit 2).flag = 1 ↔ (NOInit 2).nRunning = 1) ∧
      (NOInit 2).nRunning ≤ 1) ∧
    ((NOInit 2).flag = 0 ∧ (NOState.mk 1 1 1 0 0).flag = 1) ∧
    ((NOState.mk 1 1 1 0 0).flag ≠ 0 ∧
      (NOState.mk 1 0 1 1 0).nRunning = (NOState.mk 1 1 1 0 0).nRunning ∧
      (NOState.mk 1 0 1 1 0).nDone = (NOState.mk 1 1 1 0 0).nDone) := by
  refine ⟨noOverlap_single_flight.1 2 (NOInit 2) Relation.ReflTransGen.refl,
    ?_, ?_⟩
  · exact noOverlap_single_flight.2.1 (NOInit 2) (NOState.mk 1 1 1 0 0)
      (NOStep.casWin (NOInit 2) (by decide) rfl) (by decide)
  · exact noOverlap_single_flight.2.2.2 (NOState.mk 1 1 1 0 0)
      (NOState.mk 1 0 1 1 0)
      (NOStep.casLose (NOState.mk 1 1 1 0 0) (by decide) (by decide))
      (by decide)

/-! ## Claims C1 and C9: `TickLoop`

```go
func TickLoop[Fn TaskFunc](ticks <-chan time.Time, ctx context.Context, task Fn) error {
    adaptedTask := Adapt(task)
    ctx, cancel := context.WithCancelCause(ctx)
    defer cancel(ErrStopped)
    errCh := make(chan error)
    defer close(errCh)
    var closed atomic.Bool
    defer closed.Store(true)
    for {
        select {
        case _, ok := <-ticks:
            if !ok || closed.Load() {
                return ErrStopped
            }
            go func() {
                if err := adaptedTask(ctx); err != nil && !closed.Swap(true) {
                    errCh <- err
                }
            }()
        case <-ctx.Done():
            return ctx.Err()
        case err := <-errCh:
            return err
        }
    }
}
```

The loop goroutine, the spawned invocation goroutines and the
environment (tick producer, channel closer, parent-context
cancellation) are modelled as a transition system.  Deferred calls run
in LIFO order after a `return r`, so the loop passes through the
phases `deferStore r` (about to run `closed.Store(true)`), then
`deferClose r` (about to run `close(errCh)`), then `done r`.
Invocations are symmetric, so the state keeps counts plus the single
possible pending report (at most one invocation ever wins the
`closed.Swap(true)` guard; this is proved, not assumed). -/

inductive TLPhase : Type where
  | selecting
  | deferStore (r : GoErr)
  | deferClose (r : GoErr)
  | done (r : GoErr)
  deriving DecidableEq, Repr

/-- The state of the one-shot error report: nothing pushed yet, an
invocation blocked sending `e` on `errCh`, the loop received `e`, or
the sender hit the closed `errCh` (a Go run-time panic). -/
inductive TLReport : Type where
  | none
  | sending (e : GoErr)
  | delivered (e : GoErr)
  | panicked (e : GoErr)
  deriving DecidableEq, Repr

structure TLState : Type where
  phase : TLPhase
  tickPending : Nat
  ticksClosed : Bool
  ctxDone : Bool
  closed : Bool
  errChClosed : Bool
  nRunning : Nat
  report : TLReport
  spawned : Nat
  ticksRecv : Nat
  nDiscarded : Nat
  nFinishedOk : Nat
  deriving DecidableEq, Repr

/-- One atomic action of `TickLoop`, of an invocation goroutine or of
the environment.  `pErr` is the parent context's error (`ctx.Err()`)
once that context is done. -/
inductive TLStep (pErr : GoErr) : TLState → TLState → Prop where
  | envTick (s : TLState) : s.ticksClosed = false →
      TLStep pErr s { s with tickPending := s.tickPending + 1 }
  | envClose (s : TLState) : s.ticksClosed = false →
      TLStep pErr s { s with ticksClosed := true }
  | envCtxDone (s : TLState) : s.ctxDone = false →
      TLStep pErr s { s with ctxDone := true }
  | recvTickSpawn (s : TLState) : s.phase = .selecting →
      s.tickPending ≠ 0 → s.closed = false →
      TLStep pErr s { s with tickPending := s.tickPending - 1,
                             ticksRecv := s.ticksRecv + 1,
                             spawned := s.spawned + 1,
                             nRunning := s.nRunning + 1 }
  | recvTickGuard (s : TLState) : s.phase = .selecting →
      s.tickPending ≠ 0 → s.closed = true →
      TLStep pErr s { s with tickPending := s.tickPending - 1,
                             ticksRecv := s.ticksRecv + 1,
                             phase := .deferStore .stopped }
  | recvClosed (s : TLState) : s.phase = .selecting →
      s.tickPending = 0 → s.ticksClosed = true →
      TLStep pErr s { s with phase := .deferStore .stopped }
  | recvCtxDone (s : TLState) : s.phase = .selecting → s.ctxDone = true →
      TLStep pErr s { s with phase := .deferStore pErr }
  | recvErr (s : TLState) (e : GoErr) : s.phase = .selecting →
      s.report = .sending e → s.errChClosed = false →
      TLStep pErr s { s with report := .delivered e, phase := .deferStore e }
  | invFinishOk (s : TLState) : s.nRunning ≠ 0 →
      TLStep pErr s { s with nRunning := s.nRunning - 1,
                             nFinishedOk := s.nFinishedOk + 1 }
  | invFailSwapWin (s : TLState) (e : GoErr) : s.nRunning ≠ 0 →
      s.closed = false →
      TLStep pErr s { s with nRunning := s.nRunning - 1,
                             closed := true, report := .sending e }
  | invFailSwapLose (s : TLState) : s.nRunning ≠ 0 → s.closed = true →
      TLStep pErr s { s with nRunning := s.nRunning - 1,
                             nDiscarded := s.nDiscarded + 1 }
  | sendPanic (s : TLState) (e : GoErr) : s.report = .sending e →
      s.errChClosed = true →
      TLStep pErr s { s with report := .panicked e }
  | deferStoreStep (s : TLState) (r : GoErr) : s.phase = .deferStore r →
      TLStep pErr s { s with closed := true, phase := .deferClose r }
  | deferCloseStep (s : TLState) (r : GoErr) : s.phase = .deferClose r →
      TLStep pErr s { s with errChClosed := true, phase := .done r }

/-- `TickLoop` at entry: selecting, nothing pending, guard clear. -/
def TLInit : TLState :=
  ⟨.selecting, 0, false, false, false, false, 0, .none, 0, 0, 0, 0⟩

def TLReach (pErr : GoErr) (s : TLState) : Prop :=
  Relation.ReflTransGen (TLStep pErr) TLInit s

/-- The value being returned (the argument of `return r`) once the
loop has committed to returning, through all the defer phases. -/
def phaseResult : TLPhase → Option GoErr
  | .selecting => none
  | .deferStore r => some r
  | .deferClose r => some r
  | .done r => some r

/-- Whether the deferred `closed.Store(true)` has already run. -/
def pastStore : TLPhase → Bool
  | .deferClose _ => true
  | .done _ => true
  | _ => false

/-- Inductive invariant of the `TickLoop` system. -/
def TLInv (pErr : GoErr) (s : TLState) : Prop :=
  (s.report ≠ .none → s.closed = true) ∧
  (s.phase = .selecting → s.closed = true → s.report ≠ .none) ∧
  (∀ r, phaseResult s.phase = some r →
    (r = .stopped ∧ (s.ticksClosed = true ∨ s.report ≠ .none)) ∨
    (r = pErr ∧ s.ctxDone = true) ∨ s.report = .delivered r) ∧
  (pastStore s.phase = true → s.closed = true) ∧
  (s.phase = .selecting → s.ticksRecv = s.spawned) ∧
  s.ticksRecv ≤ s.spawned + 1

lemma tlInv_holds (pErr : GoErr) (s : TLState) (h : TLReach pErr s) :
    TLInv pErr s := by
  induction h with
  | refl => exact ⟨by simp [TLInit], by simp [TLInit], by simp [TLInit, phaseResult],
      by simp [TLInit, pastStore], by simp [TLInit], by simp [TLInit]⟩
  | tail _ step ih =>
    obtain ⟨h1, h2, h3, h4, h5, h6⟩ := ih
    cases step with
    | envTick hc =>
      exact ⟨h1, h2, h3, h4, h5, h6⟩
    | envClose hc =>
      rename_i t _
      refine ⟨h1, h2, ?_, h4, h5, h6⟩
      intro r hr
      have hr0 : phaseResult t.phase = some r := hr
      rcases h3 r hr0 with ⟨hs, _⟩ | hb | hb
      · exact Or.inl ⟨hs, Or.inl rfl⟩
      · exact Or.inr (Or.inl hb)
      · exact Or.inr (Or.inr hb)
    | envCtxDone hc =>
      rename_i t _
      refine ⟨h1, h2, ?_, h4, h5, h6⟩
      intro r hr
      have hr0 : phaseResult t.phase = some r := hr
      rcases h3 r hr0 with ⟨hs, hd⟩ | ⟨hpe, _⟩ | hb
      · exact Or.inl ⟨hs, hd⟩
      · exact Or.inr (Or.inl ⟨hpe, rfl⟩)
      · exact Or.inr (Or.inr hb)
    | recvTickSpawn hp hn hc =>
      rename_i t _
      have heq := h5 hp
      refine ⟨h1, ?_, h3, h4, ?_, ?_⟩
      · intro _ hcl
        have hcl0 : t.closed = true := hcl
        rw [hc] at hcl0
        exact absurd hcl0 (by simp)
      · intro _
        show t.ticksRecv + 1 = t.spawned + 1
        omega
      · show t.ticksRecv + 1 ≤ t.spawned + 1 + 1
        omega
    | recvTickGuard hp hn hc =>
      rename_i t _
      have hrep : t.report ≠ .none := h2 hp hc
      have heq := h5 hp
      refine ⟨h1, ?_, ?_, ?_, ?_, ?_⟩
      · intro hsel
        have : TLPhase.deferStore .stopped = TLPhase.selecting := hsel
        exact absurd this (by simp)
      · intro r hr
        have hr0 : phaseResult (TLPhase.deferStore .stopped) = some r := hr
        simp only [phaseResult, Option.some.injEq] at hr0
        subst hr0
        exact Or.inl ⟨rfl, Or.inr hrep⟩
      · intro _
        exact hc
      · intro hsel
        have : TLPhase.deferStore .stopped = TLPhase.selecting := hsel
        exact absurd this (by simp)
      · show t.ticksRecv + 1 ≤ t.spawned + 1
        omega
    | recvClosed hp htp htc =>
      rename_i t _
      have heq := h5 hp
      refine ⟨h1, ?_, ?_, ?_, ?_, h6⟩
      · intro hsel
        have : TLPhase.deferStore .stopped = TLPhase.selecting := hsel
        exact absurd this (by simp)
      · intro r hr
        have hr0 : phaseResult (TLPhase.deferStore .stopped) = some r := hr
        simp only [phaseResult, Option.some.injEq] at hr0
        subst hr0
        exact Or.inl ⟨rfl, Or.inl htc⟩
      · intro hpast
        have : pastStore (TLPhase.deferStore .stopped) = true := hpast
        simp [pastStore] at this
      · intro hsel
        have : TLPhase.deferStore .stopped = TLPhase.selecting := hsel
        exact absurd this (by simp)
    | recvCtxDone hp hd =>
      rename_i t _
      refine ⟨h1, ?_, ?_, ?_, ?_, h6⟩
      · intro hsel
        have : TLPhase.deferStore pErr = TLPhase.selecting := hsel
        exact absurd this (by simp)
      · intro r hr
        have hr0 : phaseResult (TLPhase.deferStore pErr) = some r := hr
        simp only [phaseResult, Option.some.injEq] at hr0
        subst hr0
        exact Or.inr (Or.inl ⟨rfl, hd⟩)
      · intro hpast
        have : pastStore (TLPhase.deferStore pErr) = true := hpast
        simp [pastStore] at this
      · intro hsel
        have : TLPhase.deferStore pErr = TLPhase.selecting := hsel
        exact absurd this (by simp)
    | recvErr e hp hrep hec =>
      rename_i t _
      refine ⟨?_, ?_, ?_, ?_, ?_, h6⟩
      · intro _
        exact h1 (by rw [hrep]; simp)
      · intro hsel
        have : TLPhase.deferStore e = TLPhase.selecting := hsel
        exact absurd this (by simp)
      · intro r hr
        have hr0 : phaseResult (TLPhase.deferStore e) = some r := hr
        simp only [phaseResult, Option.some.injEq] at hr0
        subst hr0
        exact Or.inr (Or.inr rfl)
      · intro hpast
        have : pastStore (TLPhase.deferStore e) = true := hpast
        simp [pastStore] at this
      · intro hsel
        have : TLPhase.deferStore e = TLPhase.selecting := hsel
        exact absurd this (by simp)
    | invFinishOk hn =>
      exact ⟨h1, h2, h3, h4, h5, h6⟩
    | invFailSwapWin e hn hc =>
      rename_i t _
      refine ⟨fun _ => rfl, fun _ _ => by simp, ?_, fun _ => rfl, h5, h6⟩
      intro r hr
      have hr0 : phaseResult t.phase = some r := hr
      rcases h3 r hr0 with ⟨hs, _⟩ | hb | hb
      · exact Or.inl ⟨hs, Or.inr (by simp)⟩
      · exact Or.inr (Or.inl hb)
      · have hcl := h1 (by rw [hb]; simp)
        rw [hcl] at hc
        exact absurd hc (by simp)
    | invFailSwapLose hn hc =>
      exact ⟨h1, h2, h3, h4, h5, h6⟩
    | sendPanic e hrep hec =>
      rename_i t _
      refine ⟨fun _ => h1 (by rw [hrep]; simp), fun hp _ => by simp, ?_,
        h4, h5, h6⟩
      intro r hr
      have hr0 : phaseResult t.phase = some r := hr
      rcases h3 r hr0 with ⟨hs, _⟩ | hb | hb
      · exact Or.inl ⟨hs, Or.inr (by simp)⟩
      · exact Or.inr (Or.inl hb)
      · rw [hrep] at hb
        exact absurd hb (by simp)
    | deferStoreStep r hp =>
      rename_i t _
      refine ⟨fun _ => rfl, ?_, ?_, fun _ => rfl, ?_, h6⟩
      · intro hsel
        have : TLPhase.deferClose r = TLPhase.selecting := hsel
        exact absurd this (by simp)
      · intro q hq
        have hq0 : phaseResult (TLPhase.deferClose r) = some q := hq
        simp only [phaseResult, Option.some.injEq] at hq0
        subst hq0
        rw [hp] at h3
        exact h3 r (by simp [phaseResult])
      · intro hsel
        have : TLPhase.deferClose r = TLPhase.selecting := hsel
        exact absurd this (by simp)
    | deferCloseStep r hp =>
      rename_i t _
      refine ⟨h1, ?_, ?_, ?_, ?_, h6⟩
      · intro hsel
        have : TLPhase.done r = TLPhase.selecting := hsel
        exact absurd this (by simp)
      · intro q hq
        have hq0 : phaseResult (TLPhase.done r) = some q := hq
        simp only [phaseResult, Option.some.injEq] at hq0
        subst hq0
        rw [hp] at h3
        exact h3 r (by simp [phaseResult])
      · intro _
        exact h4 (by rw [hp]; rfl)
      · intro hsel
        have : TLPhase.done r = TLPhase.selecting := hsel
        exact absurd this (by simp)

/-- Claim C1 as literally stated: the loop returns exactly one of the
three listed terminal conditions — `ErrStopped` only with the tick
channel observed closed, the parent context's error with the context
done, or a delivered invocation error — and every tick received
spawned one invocation. -/
def tickLoopReturnsListedCondition : Prop :=
  ∀ pErr s, TLReach pErr s → ∀ r, s.phase = .done r →
    s.ticksRecv = s.spawned ∧
    ((r = .stopped ∧ s.ticksClosed = true) ∨
     (r = pErr ∧ s.ctxDone = true) ∨
     s.report = .delivered r)

/- The racing execution refuting it: one tick spawns an invocation,
the invocation fails and wins the `closed.Swap(true)` guard, then
blocks sending on `errCh`; a second tick arrives and the `select`
picks the tick branch, where `closed.Load()` makes the loop return
`ErrStopped` — with the channel never closed, the context never done,
and the reported error never received. -/

def tlRace1 : TLState := { TLInit with tickPending := 1 }

def tlRace2 : TLState :=
  { tlRace1 with tickPending := 0, ticksRecv := 1, spawned := 1, nRunning := 1 }

def tlRace3 : TLState :=
  { tlRace2 with nRunning := 0, closed := true,
                 report := .sending (.generic 0) }

def tlRace4 : TLState := { tlRace3 with tickPending := 1 }

def tlRace5 : TLState :=
  { tlRace4 with tickPending := 0, ticksRecv := 2,
                 phase := .deferStore .stopped }

def tlRace6 : TLState :=
  { tlRace5 with closed := true, phase := .deferClose .stopped }

def tlRace7 : TLState :=
  { tlRace6 with errChClosed := true, phase := .done .stopped }

/-- **C1 is false as stated**: in the race above, `TickLoop` returns
`ErrStopped` although the tick channel was never closed, the parent
context never became done, and a spawned invocation had reported a
non-nil error that was never returned; moreover the second received
tick spawned no invocation. -/
theorem tickLoop_claim_counterexample : ¬ tickLoopReturnsListedCondition := by
  intro h
  have s1 : TLStep GoErr.canceled TLInit tlRace1 := TLStep.envTick TLInit rfl
  have s2 : TLStep GoErr.canceled tlRace1 tlRace2 :=
    TLStep.recvTickSpawn tlRace1 rfl (by decide) rfl
  have s3 : TLStep GoErr.canceled tlRace2 tlRace3 :=
    TLStep.invFailSwapWin tlRace2 (.generic 0) (by decide) rfl
  have s4 : TLStep GoErr.canceled tlRace3 tlRace4 := TLStep.envTick tlRace3 rfl
  have s5 : TLStep GoErr.canceled tlRace4 tlRace5 :=
    TLStep.recvTickGuard tlRace4 rfl (by decide) rfl
  have s6 : TLStep GoErr.canceled tlRace5 tlRace6 :=
    TLStep.deferStoreStep tlRace5 .stopped rfl
  have s7 : TLStep GoErr.canceled tlRace6 tlRace7 :=
    TLStep.deferCloseStep tlRace6 .stopped rfl
  have hreach : TLReach GoErr.canceled tlRace7 :=
    .tail (.tail (.tail (.tail (.tail (.tail (.single s1) s2) s3) s4) s5) s6) s7
  have hc := h GoErr.canceled tlRace7 hreach .stopped rfl
  exact absurd hc.1 (by decide)

/-- **C1 (amended).** In every reachable state in which `TickLoop` has
returned `r`: either `r` is the stopped sentinel and then the tick
channel was closed **or** the one-shot guard had been set by a failing
invocation (a tick received after the guard is set also returns
`ErrStopped`); or `r` is the parent context's error and the context
was done; or `r` is the delivered first invocation error.  While the
loop is still selecting, every received tick has spawned exactly one
invocation (the loop never waits on them), and at most the one final
guarded tick goes unspawned. -/
theorem tickLoop_terminal_characterization (pErr : GoErr) (s : TLState)
    (h : TLReach pErr s) :
    (∀ r, s.phase = .done r →
      (r = .stopped ∧ (s.ticksClosed = true ∨ s.report ≠ .none)) ∨
      (r = pErr ∧ s.ctxDone = true) ∨ s.report = .delivered r) ∧
    (s.phase = .selecting → s.ticksRecv = s.spawned) ∧
    s.ticksRecv ≤ s.spawned + 1 := by
  obtain ⟨h1, h2, h3, h4, h5, h6⟩ := tlInv_holds pErr s h
  refine ⟨?_, h5, h6⟩
  intro r hr
  exact h3 r (by rw [hr]; rfl)

theorem tickLoop_terminal_characterization_witness :
    (∀ r, TLInit.phase = .done r →
      (r = GoErr.stopped ∧ (TLInit.ticksClosed = true ∨ TLInit.report ≠ .none)) ∨
      (r = GoErr.canceled ∧ TLInit.ctxDone = true) ∨
      TLInit.report = .delivered r) ∧
    (TLInit.phase = .selecting → TLInit.ticksRecv = TLInit.spawned) ∧
    TLInit.ticksRecv ≤ TLInit.spawned + 1 :=
  tickLoop_terminal_characterization GoErr.canceled TLInit
    Relation.ReflTransGen.refl

/-! States for witnessing the late-error-discard theorem: a clean
`return ErrStopped` run (channel closed with no tick and no failure),
and two single-step situations. -/

def tlStopA : TLState := { TLInit with ticksClosed := true }

def tlStopB : TLState := { tlStopA with phase := .deferStore .stopped }

def tlStopC : TLState :=
  { tlStopB with closed := true, phase := .deferClose .stopped }

def tlStopD : TLState :=
  { tlStopC with errChClosed := true, phase := .done .stopped }

def tlGuardW : TLState := { TLInit with closed := true }

def tlGuardW2 : TLState := { tlGuardW with tickPending := 1 }

def tlInvW : TLState := { TLInit with nRunning := 1 }

def tlInvW2 : TLState :=
  { tlInvW with nRunning := 0, closed := true,
                report := .sending (.generic 0) }

/-- **C9.** The one-shot guard protocol of `TickLoop`:
(1) once the `closed` guard is set, no step ever clears it (it is set
at most once);
(2) an error is pushed onto the completion channel only by the step
that atomically observes the guard clear and sets it (the guard is
checked before any push);
(3) whenever the loop has fully returned, the guard is set (the
deferred `closed.Store(true)` ran before `close(errCh)`);
(4) hence from any state where the loop has the guard set and no
report is pending, no invocation ever pushes onto the completion
channel afterwards: a later-failing invocation is discarded by the
failed swap, without ever blocking on the channel (and without
panicking on the closed channel). -/
theorem tickLoop_late_error_discarded (pErr : GoErr) :
    (∀ s u, TLStep pErr s u → s.closed = true → u.closed = true) ∧
    (∀ s u, TLStep pErr s u → s.report = .none → u.report ≠ .none →
      s.closed = false ∧ u.closed = true) ∧
    (∀ s r, TLReach pErr s → s.phase = .done r → s.closed = true) ∧
    (∀ s, s.closed = true → s.report = .none →
      ∀ u, Relation.ReflTransGen (TLStep pErr) s u →
        u.report = .none ∧ u.closed = true) := by
  have hmono : ∀ s u, TLStep pErr s u → s.closed = true → u.closed = true := by
    intro s u st hc
    cases st
    all_goals first | exact hc | rfl
  refine ⟨hmono, ?_, ?_, ?_⟩
  · intro s u st h0 h1
    cases st with
    | envTick hc => exact absurd h0 h1
    | envClose hc => exact absurd h0 h1
    | envCtxDone hc => exact absurd h0 h1
    | recvTickSpawn hp hn hc => exact absurd h0 h1
    | recvTickGuard hp hn hc => exact absurd h0 h1
    | recvClosed hp htp htc => exact absurd h0 h1
    | recvCtxDone hp hd => exact absurd h0 h1
    | recvErr e hp hrep hec =>
      rw [h0] at hrep
      exact absurd hrep (by simp)
    | invFinishOk hn => exact absurd h0 h1
    | invFailSwapWin e hn hc => exact ⟨hc, rfl⟩
    | invFailSwapLose hn hc => exact absurd h0 h1
    | sendPanic e hrep hec =>
      rw [h0] at hrep
      exact absurd hrep (by simp)
    | deferStoreStep r hp => exact absurd h0 h1
    | deferCloseStep r hp => exact absurd h0 h1
  · intro s r hre hdone
    obtain ⟨_, _, _, h4, _, _⟩ := tlInv_holds pErr s hre
    exact h4 (by rw [hdone]; rfl)
  · intro s hc hn u hru
    induction hru with
    | refl => exact ⟨hn, hc⟩
    | tail _ st ih =>
      obtain ⟨ihn, ihc⟩ := ih
      refine ⟨?_, hmono _ _ st ihc⟩
      cases st with
      | envTick hc' => exact ihn
      | envClose hc' => exact ihn
      | envCtxDone hc' => exact ihn
      | recvTickSpawn hp hn' hc' => exact ihn
      | recvTickGuard hp hn' hc' => exact ihn
      | recvClosed hp htp htc => exact ihn
      | recvCtxDone hp hd => exact ihn
      | recvErr e hp hrep hec =>
        rw [ihn] at hrep
        exact absurd hrep (by simp)
      | invFinishOk hn' => exact ihn
      | invFailSwapWin e hn' hc' =>
        rw [ihc] at hc'
        exact absurd hc' (by simp)
      | invFailSwapLose hn' hc' => exact ihn
      | sendPanic e hrep hec =>
        rw [ihn] at hrep
        exact absurd hrep (by simp)
      | deferStoreStep r hp => exact ihn
      | deferCloseStep r hp => exact ihn

theorem tickLoop_late_error_discarded_witness :
    (tlGuardW2.closed = true) ∧
    (tlInvW.closed = false ∧ tlInvW2.closed = true) ∧
    (tlStopD.closed = true) ∧
    (tlStopD.report = .none ∧ tlStopD.closed = true) := by
  have hchain : TLReach GoErr.canceled tlStopD := by
    have s1 : TLStep GoErr.canceled TLInit tlStopA := TLStep.envClose TLInit rfl
    have s2 : TLStep GoErr.canceled tlStopA tlStopB :=
      TLStep.recvClosed tlStopA rfl rfl rfl
    have s3 : TLStep GoErr.canceled tlStopB tlStopC :=
      TLStep.deferStoreStep tlStopB .stopped rfl
    have s4 : TLStep GoErr.canceled tlStopC tlStopD :=
      TLStep.deferCloseStep tlStopC .stopped rfl
    exact .tail (.tail (.tail (.single s1) s2) s3) s4
  refine ⟨?_, ?_, ?_, ?_⟩
  · exact (tickLoop_late_error_discarded GoErr.canceled).1 tlGuardW tlGuardW2
      (TLStep.envTick tlGuardW rfl) rfl
  · exact ⟨rfl, (tickLoop_late_error_discarded GoErr.canceled).2.1 tlInvW tlInvW2
      (TLStep.invFailSwapWin tlInvW (.generic 0) (by decide) rfl) rfl
      (by decide) |>.2⟩
  · exact (tickLoop_late_error_discarded GoErr.canceled).2.2.1 tlStopD .stopped
      hchain rfl
  · exact (tickLoop_late_error_discarded GoErr.canceled).2.2.2 tlStopD rfl rfl
      tlStopD Relation.ReflTransGen.refl

/-! ## Claims C2, C3 and C4: `periodicTask`

```go
func (pt *periodicTask) Start() {
    pt.stateMux.Lock(); defer pt.stateMux.Unlock()
    if pt.ticker != nil { return }
    pt.wg.Add(1)
    pt.err = nil
    pt.ticker = pt.tickerConstructor(pt.period)
    go pt.loop(pt.ticker.TickChan())
}
func (pt *periodicTask) Stop() {
    pt.stateMux.Lock(); defer pt.stateMux.Unlock()
    if pt.ticker == nil { return }
    pt.ticker.Destroy()
    pt.ticker = nil
    if pt.err == nil { pt.err = ErrStopped }
}
func (pt *periodicTask) loop(ticks <-chan time.Time) {
    defer pt.wg.Done()
    ctx, cancel := context.WithCancelCause(context.Background())
    defer cancel(ErrStopped)
    ctx = context.WithValue(ctx, TaskNameKey{}, pt.name)
    for range ticks { pt.wg.Add(1); go pt.run(ctx) }
}
func (pt *periodicTask) run(ctx context.Context) {
    defer pt.wg.Done()
    if err := pt.task(ctx); err != nil && ctx.Err() == nil {
        pt.stateMux.Lock(); defer pt.stateMux.Unlock()
        pt.err = err
        go pt.Stop()
    }
}
```

The mutex makes `Start`, `Stop`, `Error` and `run`'s critical section
atomic, so each is one step.  Each `Start` opens a new generation: a
fresh ticker and a fresh supervising loop goroutine with a fresh
derived context, cancelled (with the stopped cause) when that loop
exits after draining its closed tick channel.  `ticksClosed` of a
generation's loop records that its ticker was destroyed; `pending` its
undelivered buffered ticks; `invs` holds the generation of each
in-flight invocation; a generation enters `exited` when its loop
returns, which is when its invocations' shared context gets cancelled.
`failedSince` is a history variable: some `run` recorded an error
since the last activating `Start`. -/

structure LoopSt : Type where
  gen : Nat
  ticksClosed : Bool
  pending : Nat
  deriving DecidableEq, Repr

structure PTState : Type where
  started : Bool
  gen : Nat
  tickerActive : Bool
  liveTickers : Nat
  err : Option GoErr
  failedSince : Bool
  pendingStops : Nat
  loops : List LoopSt
  invs : List Nat
  exited : List Nat
  deriving DecidableEq, Repr

inductive PTLabel : Type where
  | start
  | stopCall
  | stopRun
  | tickArrive
  | spawn (g : Nat)
  | invOk (g : Nat)
  | invFail (g : Nat) (e : GoErr)
  | loopExit (g : Nat)
  deriving DecidableEq, Repr

/-- `Destroy` closes the tick channel of generation `g`'s loop. -/
def closeLoops (g : Nat) : List LoopSt → List LoopSt :=
  List.map fun l => if l.gen = g then { l with ticksClosed := true } else l

/-- The ticker buffers one more tick for generation `g`'s loop. -/
def bumpLoop (g : Nat) : List LoopSt → List LoopSt :=
  List.map fun l => if l.gen = g then { l with pending := l.pending + 1 } else l

/-- Generation `g`'s loop receives one buffered tick. -/
def drainLoop (g : Nat) : List LoopSt → List LoopSt :=
  List.map fun l => if l.gen = g then { l with pending := l.pending - 1 } else l

/-- The body of `Stop()`: no-op when no ticker is active; otherwise
destroy the ticker (closing its loop's tick stream), clear the handle,
and record the stopped sentinel if no error is recorded yet. -/
def stopEffect (s : PTState) : PTState :=
  match s.tickerActive with
  | false => s
  | true =>
    { s with tickerActive := false,
             liveTickers := s.liveTickers - 1,
             loops := closeLoops s.gen s.loops,
             err := if s.err = none then some .stopped else s.err }

/-- The body of `Start()`: no-op when a ticker is active; otherwise
clear the stored error, create a ticker and launch a fresh supervising
loop for the new generation. -/
def startEffect (s : PTState) : PTState :=
  match s.tickerActive with
  | true => s
  | false =>
    { s with started := true, gen := s.gen + 1, tickerActive := true,
             liveTickers := s.liveTickers + 1, err := none,
             failedSince := false,
             loops := ⟨s.gen + 1, false, 0⟩ :: s.loops }

/-- One atomic action of the `periodicTask` system: a caller's `Start`
or `Stop`, the engine's queued `go pt.Stop()` running, the ticker
buffering a tick, the loop receiving a tick and spawning `run`, an
invocation finishing without recording (nil error, or a non-nil error
with its context already cancelled), an invocation recording its error
under the lock and queueing a stop (`run`'s error path, guarded by
`ctx.Err() == nil`), or a loop goroutine exiting after its closed
stream is drained (cancelling its generation's context). -/
inductive PTStep : PTLabel → PTState → PTState → Prop where
  | start (s : PTState) : PTStep .start s (startEffect s)
  | stopCall (s : PTState) : PTStep .stopCall s (stopEffect s)
  | stopRun (s : PTState) : s.pendingStops ≠ 0 →
      PTStep .stopRun s
        (stopEffect { s with pendingStops := s.pendingStops - 1 })
  | tickArrive (s : PTState) : s.tickerActive = true →
      PTStep .tickArrive s { s with loops := bumpLoop s.gen s.loops }
  | spawn (s : PTState) (l : LoopSt) : l ∈ s.loops → l.pending ≠ 0 →
      PTStep (.spawn l.gen) s
        { s with loops := drainLoop l.gen s.loops, invs := l.gen :: s.invs }
  | invOk (s : PTState) (g : Nat) : g ∈ s.invs →
      PTStep (.invOk g) s { s with invs := s.invs.erase g }
  | invFail (s : PTState) (g : Nat) (e : GoErr) : g ∈ s.invs →
      g ∉ s.exited →
      PTStep (.invFail g e) s
        { s with invs := s.invs.erase g, err := some e,
                 failedSince := true, pendingStops := s.pendingStops + 1 }
  | loopExit (s : PTState) (l : LoopSt) : l ∈ s.loops →
      l.ticksClosed = true → l.pending = 0 →
      PTStep (.loopExit l.gen) s
        { s with loops := s.loops.erase l, exited := l.gen :: s.exited }

/-- A freshly constructed task (`NewTask`): stopped, no error. -/
def PTInit : PTState := ⟨false, 0, false, 0, none, false, 0, [], [], []⟩

def PTReach (s : PTState) : Prop :=
  Relation.ReflTransGen (fun a b => ∃ l, PTStep l a b) PTInit s

/-- A labelled execution fragment of the `periodicTask` system. -/
inductive PTPath : PTState → List PTLabel → PTState → Prop where
  | nil (s : PTState) : PTPath s [] s
  | cons {s t u : PTState} {ls : List PTLabel} (l : PTLabel) :
      PTStep l s t → PTPath t ls u → PTPath s (l :: ls) u

/-- Buffered, not yet delivered ticks across all live loops. -/
def pendingSum (s : PTState) : Nat :=
  (s.loops.map LoopSt.pending).sum

def countSpawns : List PTLabel → Nat
  | [] => 0
  | .spawn _ :: ls => countSpawns ls + 1
  | _ :: ls => countSpawns ls

def countTicks : List PTLabel → Nat
  | [] => 0
  | .tickArrive :: ls => countTicks ls + 1
  | _ :: ls => countTicks ls

lemma stopEffect_of_inactive (s : PTState) (h : s.tickerActive = false) :
    stopEffect s = s := by
  unfold stopEffect
  split
  · rfl
  · rename_i heq
    rw [h] at heq
    exact absurd heq (by simp)

lemma startEffect_of_active (s : PTState) (h : s.tickerActive = true) :
    startEffect s = s := by
  unfold startEffect
  split
  · rfl
  · rename_i heq
    rw [h] at heq
    exact absurd heq (by simp)

lemma stopEffect_tickerActive (s : PTState) :
    (stopEffect s).tickerActive = false := by
  unfold stopEffect
  split
  · rename_i heq
    exact heq
  · rfl

lemma stopEffect_started (s : PTState) :
    (stopEffect s).started = s.started := by
  unfold stopEffect
  split
  · rfl
  · rfl

lemma stopEffect_err_of_some (s : PTState) (e : GoErr) (h : s.err = some e) :
    (stopEffect s).err = some e := by
  unfold stopEffect
  split
  · exact h
  · simp only [h]
    rfl

lemma stopEffect_err_of_none (s : PTState) (hA : s.tickerActive = true)
    (h : s.err = none) : (stopEffect s).err = some .stopped := by
  unfold stopEffect
  split
  · rename_i heq
    rw [hA] at heq
    exact absurd heq (by simp)
  · simp only [h]
    rfl

lemma map_pending_closeLoops (g : Nat) (L : List LoopSt) :
    (closeLoops g L).map LoopSt.pending = L.map LoopSt.pending := by
  unfold closeLoops
  rw [List.map_map]
  apply List.map_congr_left
  intro l _
  by_cases hg : l.gen = g
  · simp [hg, Function.comp]
  · simp [hg, Function.comp]

lemma map_pending_drainLoop (g : Nat) (L : List LoopSt) :
    (drainLoop g L).map LoopSt.pending
      = L.map fun l => if l.gen = g then l.pending - 1 else l.pending := by
  unfold drainLoop
  rw [List.map_map]
  apply List.map_congr_left
  intro l _
  by_cases hg : l.gen = g
  · simp [hg, Function.comp]
  · simp [hg, Function.comp]

lemma sum_drain_le (g : Nat) (L : List LoopSt) :
    ((drainLoop g L).map LoopSt.pending).sum ≤ (L.map LoopSt.pending).sum := by
  rw [map_pending_drainLoop]
  induction L with
  | nil => simp
  | cons a L ih =>
    simp only [List.map_cons, List.sum_cons]
    by_cases hg : a.gen = g
    · rw [if_pos hg]
      omega
    · rw [if_neg hg]
      omega

lemma sum_drain_lt (g : Nat) (L : List LoopSt) (l : LoopSt) (hl : l ∈ L)
    (hg : l.gen = g) (hp : l.pending ≠ 0) :
    ((drainLoop g L).map LoopSt.pending).sum + 1 ≤ (L.map LoopSt.pending).sum := by
  rw [map_pending_drainLoop]
  induction L with
  | nil => simp at hl
  | cons a L ih =>
    simp only [List.map_cons, List.sum_cons]
    rcases List.mem_cons.mp hl with rfl | hl'
    · rw [if_pos hg]
      have h2 := sum_drain_le g L
      rw [map_pending_drainLoop] at h2
      omega
    · have ihh := ih hl'
      by_cases hga : a.gen = g
      · rw [if_pos hga]
        omega
      · rw [if_neg hga]
        omega

lemma sum_erase_le (L : List LoopSt) (l : LoopSt) :
    ((L.erase l).map LoopSt.pending).sum ≤ (L.map LoopSt.pending).sum :=
  List.Sublist.sum_le_sum ((List.erase_sublist l L).map LoopSt.pending)
    (by simp)

/-- Inductive invariant of the `periodicTask` system: the ticker count
matches the handle, a never-started task is in its pristine state, and
the stored error is nil exactly when the task was never started or is
cleanly active. -/
def PTInv (s : PTState) : Prop :=
  (s.liveTickers = if s.tickerActive = true then 1 else 0) ∧
  (s.started = false → s.tickerActive = false ∧ s.invs = [] ∧ s.loops = [] ∧
    s.err = none ∧ s.failedSince = false) ∧
  (s.err = none ↔ (s.started = false ∨
    (s.tickerActive = true ∧ s.failedSince = false)))

lemma ptInv_stopEffect (s : PTState) (h : PTInv s) : PTInv (stopEffect s) := by
  obtain ⟨h1, h2, h3⟩ := h
  cases hA : s.tickerActive with
  | false =>
    rw [stopEffect_of_inactive s hA]
    exact ⟨h1, h2, h3⟩
  | true =>
    have hstarted : s.started = true := by
      cases hS : s.started with
      | true => rfl
      | false =>
        have h0 := (h2 hS).1
        rw [hA] at h0
        exact absurd h0 (by simp)
    unfold stopEffect
    split
    · rename_i heq
      rw [hA] at heq
      exact absurd heq (by simp)
    · refine ⟨?_, ?_, ?_⟩
      · show s.liveTickers - 1 = if (false : Bool) = true then 1 else 0
        rw [h1, hA]
        simp
      · intro hS
        have hS0 : s.started = false := hS
        rw [hstarted] at hS0
        exact absurd hS0 (by simp)
      · constructor
        · intro hn
          have hn0 : (if s.err = none then some GoErr.stopped else s.err)
              = none := hn
          by_cases he : s.err = none
          · rw [if_pos he] at hn0
            exact absurd hn0 (by simp)
          · rw [if_neg he] at hn0
            exact absurd hn0 he
        · intro hr
          rcases hr with hS | ⟨hAct, _⟩
          · have hS0 : s.started = false := hS
            rw [hstarted] at hS0
            exact absurd hS0 (by simp)
          · have hAct0 : (false : Bool) = true := hAct
            exact absurd hAct0 (by simp)

lemma ptInv_step (lbl : PTLabel) (s u : PTState) (st : PTStep lbl s u)
    (h : PTInv s) : PTInv u := by
  obtain ⟨h1, h2, h3⟩ := h
  cases st with
  | start =>
    cases hA : s.tickerActive with
    | true =>
      rw [startEffect_of_active s hA]
      exact ⟨h1, h2, h3⟩
    | false =>
      unfold startEffect
      split
      · rename_i heq
        rw [hA] at heq
        exact absurd heq (by simp)
      · refine ⟨?_, ?_, ?_⟩
        · show s.liveTickers + 1 = if (true : Bool) = true then 1 else 0
          rw [h1, hA]
          simp
        · intro hS
          have hS0 : (true : Bool) = false := hS
          exact absurd hS0 (by simp)
        · simp
  | stopCall => exact ptInv_stopEffect s ⟨h1, h2, h3⟩
  | stopRun _ hps =>
    exact ptInv_stopEffect { s with pendingStops := s.pendingStops - 1 }
      ⟨h1, h2, h3⟩
  | tickArrive _ hA =>
    refine ⟨h1, ?_, h3⟩
    intro hS
    have hS0 : s.started = false := hS
    obtain ⟨ha, hi, hlo, he, hf⟩ := h2 hS0
    refine ⟨ha, hi, ?_, he, hf⟩
    show bumpLoop s.gen s.loops = []
    rw [hlo]
    rfl
  | spawn _ l hl hp =>
    refine ⟨h1, ?_, h3⟩
    intro hS
    have hS0 : s.started = false := hS
    obtain ⟨_, _, hlo, _, _⟩ := h2 hS0
    rw [hlo] at hl
    exact absurd hl (List.not_mem_nil l)
  | invOk _ g hg =>
    refine ⟨h1, ?_, h3⟩
    intro hS
    have hS0 : s.started = false := hS
    obtain ⟨_, hi, _, _, _⟩ := h2 hS0
    rw [hi] at hg
    exact absurd hg (List.not_mem_nil g)
  | invFail _ g e hg hex =>
    have hstarted : s.started = true := by
      cases hS : s.started with
      | true => rfl
      | false =>
        obtain ⟨_, hi, _, _, _⟩ := h2 hS
        rw [hi] at hg
        exact absurd hg (List.not_mem_nil g)
    refine ⟨h1, ?_, ?_⟩
    · intro hS
      have hS0 : s.started = false := hS
      rw [hstarted] at hS0
      exact absurd hS0 (by simp)
    · constructor
      · intro hn
        have hn0 : (some e : Option GoErr) = none := hn
        exact absurd hn0 (by simp)
      · intro hr
        rcases hr with hS | ⟨_, hF⟩
        · have hS0 : s.started = false := hS
          rw [hstarted] at hS0
          exact absurd hS0 (by simp)
        · have hF0 : (true : Bool) = false := hF
          exact absurd hF0 (by simp)
  | loopExit _ l hl hc hp =>
    refine ⟨h1, ?_, h3⟩
    intro hS
    have hS0 : s.started = false := hS
    obtain ⟨_, _, hlo, _, _⟩ := h2 hS0
    rw [hlo] at hl
    exact absurd hl (List.not_mem_nil l)

lemma ptInv_holds (s : PTState) (h : PTReach s) : PTInv s := by
  induction h with
  | refl => exact ⟨by simp [PTInit], by simp [PTInit], by simp [PTInit]⟩
  | tail _ step ih =>
    obtain ⟨lbl, st⟩ := step
    exact ptInv_step lbl _ _ st ih

lemma err_preserved_step (lbl : PTLabel) (s u : PTState)
    (st : PTStep lbl s u) (e : GoErr) (he : s.err = some e)
    (hns : lbl ≠ .start) (hnf : ∀ g e2, lbl ≠ .invFail g e2) :
    u.err = some e := by
  cases st with
  | start => exact absurd rfl hns
  | stopCall => exact stopEffect_err_of_some s e he
  | stopRun _ hps =>
    exact stopEffect_err_of_some { s with pendingStops := s.pendingStops - 1 }
      e he
  | tickArrive _ hA => exact he
  | spawn _ l hl hp => exact he
  | invOk _ g hg => exact he
  | invFail _ g e2 hg hex => exact absurd rfl (hnf g e2)
  | loopExit _ l hl hc hp => exact he

lemma inactive_absorbing_step (lbl : PTLabel) (s u : PTState)
    (st : PTStep lbl s u) (hA : s.tickerActive = false)
    (hns : lbl ≠ .start) : u.tickerActive = false := by
  cases st with
  | start => exact absurd rfl hns
  | stopCall => exact stopEffect_tickerActive s
  | stopRun _ hps =>
    exact stopEffect_tickerActive { s with pendingStops := s.pendingStops - 1 }
  | tickArrive _ hAc =>
    rw [hA] at hAc
    exact absurd hAc (by simp)
  | spawn _ l hl hp => exact hA
  | invOk _ g hg => exact hA
  | invFail _ g e hg hex => exact hA
  | loopExit _ l hl hc hp => exact hA

lemma pending_step (lbl : PTLabel) (s u : PTState) (st : PTStep lbl s u)
    (hA : s.tickerActive = false) (hns : lbl ≠ .start) :
    countSpawns [lbl] + pendingSum u ≤ pendingSum s ∧ countTicks [lbl] = 0 := by
  cases st with
  | start => exact absurd rfl hns
  | stopCall =>
    rw [stopEffect_of_inactive s hA]
    exact ⟨by show 0 + pendingSum s ≤ pendingSum s; omega, rfl⟩
  | stopRun _ hps =>
    have hA' : ({ s with pendingStops := s.pendingStops - 1 }
        : PTState).tickerActive = false := hA
    rw [stopEffect_of_inactive _ hA']
    exact ⟨by show 0 + pendingSum s ≤ pendingSum s; omega, rfl⟩
  | tickArrive _ hAc =>
    rw [hA] at hAc
    exact absurd hAc (by simp)
  | spawn _ l hl hp =>
    refine ⟨?_, rfl⟩
    have hd := sum_drain_lt l.gen s.loops l hl rfl hp
    show 0 + 1 + ((drainLoop l.gen s.loops).map LoopSt.pending).sum
        ≤ (s.loops.map LoopSt.pending).sum
    omega
  | invOk _ g hg =>
    exact ⟨by show 0 + pendingSum s ≤ pendingSum s; omega, rfl⟩
  | invFail _ g e hg hex =>
    exact ⟨by show 0 + pendingSum s ≤ pendingSum s; omega, rfl⟩
  | loopExit _ l hl hc hp =>
    refine ⟨?_, rfl⟩
    have hd := sum_erase_le s.loops l
    show 0 + ((s.loops.erase l).map LoopSt.pending).sum
        ≤ (s.loops.map LoopSt.pending).sum
    omega

lemma countTicks_cons (l : PTLabel) (ls : List PTLabel) :
    countTicks (l :: ls) = countTicks [l] + countTicks ls := by
  cases l
  all_goals simp [countTicks]
  omega

lemma countSpawns_cons (l : PTLabel) (ls : List PTLabel) :
    countSpawns (l :: ls) = countSpawns [l] + countSpawns ls := by
  cases l
  all_goals simp [countSpawns]
  omega

lemma path_err_preserved (s : PTState) (ls : List PTLabel) (u : PTState)
    (hpath : PTPath s ls u) :
    ∀ e, s.err = some e →
      (∀ l ∈ ls, l ≠ .start ∧ ∀ g e2, l ≠ .invFail g e2) →
      u.err = some e := by
  induction hpath with
  | nil => intro e he _; exact he
  | cons l st hrest ih =>
    intro e he hcond
    have hl := hcond l (List.mem_cons_self _ _)
    exact ih e (err_preserved_step l _ _ st e he hl.1 hl.2)
      fun x hx => hcond x (List.mem_cons_of_mem _ hx)

lemma path_quiescent (s : PTState) (ls : List PTLabel) (u : PTState)
    (hpath : PTPath s ls u) :
    s.tickerActive = false → (∀ l ∈ ls, l ≠ .start) →
      u.tickerActive = false ∧ countTicks ls = 0 ∧
        countSpawns ls + pendingSum u ≤ pendingSum s := by
  induction hpath with
  | nil => intro hA _; exact ⟨hA, rfl, by simp [countSpawns]⟩
  | cons l st hrest ih =>
    intro hA hcond
    have hl := hcond l (List.mem_cons_self _ _)
    have h1 := inactive_absorbing_step l _ _ st hA hl
    obtain ⟨hu, hts, hsp⟩ := ih h1 fun x hx => hcond x (List.mem_cons_of_mem _ hx)
    obtain ⟨hps, hct⟩ := pending_step l _ _ st hA hl
    refine ⟨hu, ?_, ?_⟩
    · rw [countTicks_cons, hct, hts]
    · rw [countSpawns_cons]
      omega

/-! A concrete execution: `Start`, one tick, one spawned invocation,
caller `Stop` (recording the stopped sentinel), then the still-running
invocation fails before its context is cancelled and overwrites the
recorded sentinel — the overwrite race of `run`. -/

def ptOver1 : PTState := ⟨true, 1, true, 1, none, false, 0, [⟨1, false, 0⟩], [], []⟩

def ptOver2 : PTState := ⟨true, 1, true, 1, none, false, 0, [⟨1, false, 1⟩], [], []⟩

def ptOver3 : PTState := ⟨true, 1, true, 1, none, false, 0, [⟨1, false, 0⟩], [1], []⟩

def ptOver4 : PTState :=
  ⟨true, 1, false, 0, some .stopped, false, 0, [⟨1, true, 0⟩], [1], []⟩

def ptOver5 : PTState :=
  ⟨true, 1, false, 0, some (.generic 0), true, 1, [⟨1, true, 0⟩], [], []⟩

lemma ptOver4_reachable : PTReach ptOver4 := by
  have st1 : PTStep .start PTInit ptOver1 := PTStep.start PTInit
  have st2 : PTStep .tickArrive ptOver1 ptOver2 :=
    PTStep.tickArrive ptOver1 rfl
  have st3 : PTStep (.spawn 1) ptOver2 ptOver3 :=
    PTStep.spawn ptOver2 ⟨1, false, 1⟩ (by decide) (by decide)
  have st4 : PTStep .stopCall ptOver3 ptOver4 := PTStep.stopCall ptOver3
  exact .tail (.tail (.tail (.single ⟨.start, st1⟩) ⟨.tickArrive, st2⟩)
    ⟨.spawn 1, st3⟩) ⟨.stopCall, st4⟩

/-! ### Claim C4 -/

/-- **C4.** `Start()` on a task with an active Tick Source leaves the
state unchanged (and raises nothing: the operation is total);
`Stop()` on a task with no active Tick Source leaves the state
unchanged, in particular the recorded error is not overwritten; and in
every reachable state the number of live (created and not destroyed)
tickers equals one when the handle is set and zero otherwise — so at
most one Tick Source is ever active per task. -/
theorem task_start_stop_idempotent :
    (∀ s u, PTStep .start s u → s.tickerActive = true → u = s) ∧
    (∀ s u, PTStep .stopCall s u → s.tickerActive = false → u = s) ∧
    (∀ s, PTReach s →
      s.liveTickers = (if s.tickerActive = true then 1 else 0) ∧
      s.liveTickers ≤ 1) := by
  refine ⟨?_, ?_, ?_⟩
  · intro s u st hA
    cases st with
    | start => exact startEffect_of_active s hA
  · intro s u st hA
    cases st with
    | stopCall => exact stopEffect_of_inactive s hA
  · intro s h
    obtain ⟨h1, _, _⟩ := ptInv_holds s h
    refine ⟨h1, ?_⟩
    rw [h1]
    split
    · exact le_refl 1
    · exact Nat.zero_le 1

theorem task_start_stop_idempotent_witness :
    (startEffect ptOver1 = ptOver1) ∧
    (stopEffect PTInit = PTInit) ∧
    (ptOver4.liveTickers = (if ptOver4.tickerActive = true then 1 else 0) ∧
      ptOver4.liveTickers ≤ 1) := by
  refine ⟨?_, ?_, ?_⟩
  · exact task_start_stop_idempotent.1 ptOver1 (startEffect ptOver1)
      (PTStep.start ptOver1) rfl
  · exact task_start_stop_idempotent.2.1 PTInit (stopEffect PTInit)
      (PTStep.stopCall PTInit) rfl
  · exact task_start_stop_idempotent.2.2 ptOver4 ptOver4_reachable

/-! ### Claim C3 -/

/-- Claim C3 as literally stated: `Error()` is nil **exactly** while a
Tick Source is active and no invocation has failed; a caller `Stop`
with no recorded error records the stopped sentinel; and a recorded
non-nil error persists unchanged until the next `Start`. -/
def taskErrorClaimAsStated : Prop :=
  (∀ s, PTReach s →
    (s.err = none ↔ (s.tickerActive = true ∧ s.failedSince = false))) ∧
  (∀ s u, PTStep .stopCall s u → s.tickerActive = true → s.err = none →
    u.err = some .stopped) ∧
  (∀ lbl s u, PTStep lbl s u → ∀ e, s.err = some e → lbl ≠ .start →
    u.err = some e)

/-- **C3 is false as stated**, in two ways.  First, the freshly
constructed, never-started task has `Error() = nil` with no active
Tick Source, refuting the biconditional.  Second, the persistence
clause fails on the recorded race: after `Stop()` recorded the stopped
sentinel, a still-running invocation whose context is not yet
cancelled records its own error over it (`run` assigns `pt.err`
unconditionally). -/
theorem task_error_claim_counterexample :
    (¬ taskErrorClaimAsStated) ∧
    PTReach ptOver4 ∧
    PTStep (.invFail 1 (.generic 0)) ptOver4 ptOver5 ∧
    ptOver4.err = some .stopped ∧ ptOver5.err = some (.generic 0) := by
  have st5 : PTStep (.invFail 1 (.generic 0)) ptOver4 ptOver5 :=
    PTStep.invFail ptOver4 1 (.generic 0) (by decide) (by decide)
  refine ⟨?_, ptOver4_reachable, st5, rfl, rfl⟩
  intro ⟨hA, _, hC⟩
  have h0 := (hA PTInit Relation.ReflTransGen.refl).mp rfl
  exact absurd h0.1 (by decide)

/-- **C3 (amended).** `Error()` is nil exactly while the task has
never been started, or a Tick Source is active and no invocation
failure has been recorded since the last activating `Start`; a
caller-initiated `Stop()` with no recorded error records the stopped
sentinel; a recorded non-nil error is preserved by every step except
that an activating `Start` resets it to nil and a late invocation
failure (one whose context is not yet cancelled) replaces it with the
invocation's own error. -/
theorem task_error_lifecycle :
    (∀ s, PTReach s →
      (s.err = none ↔ (s.started = false ∨
        (s.tickerActive = true ∧ s.failedSince = false)))) ∧
    (∀ s u, PTStep .stopCall s u → s.tickerActive = true → s.err = none →
      u.err = some .stopped) ∧
    (∀ lbl s u, PTStep lbl s u → ∀ e, s.err = some e →
      u.err = some e ∨ (lbl = .start ∧ u.err = none) ∨
      (∃ g e2, lbl = .invFail g e2 ∧ u.err = some e2)) ∧
    (∀ s u, PTStep .start s u → s.tickerActive = false → u.err = none) := by
  refine ⟨?_, ?_, ?_, ?_⟩
  · intro s h
    exact (ptInv_holds s h).2.2
  · intro s u st hA he
    cases st with
    | stopCall => exact stopEffect_err_of_none s hA he
  · intro lbl s u st e he
    cases st with
    | start =>
      cases hA : s.tickerActive with
      | true =>
        rw [startEffect_of_active s hA]
        exact Or.inl he
      | false =>
        refine Or.inr (Or.inl ⟨rfl, ?_⟩)
        unfold startEffect
        split
        · rename_i heq
          rw [hA] at heq
          exact absurd heq (by simp)
        · rfl
    | stopCall => exact Or.inl (stopEffect_err_of_some s e he)
    | stopRun _ hps =>
      exact Or.inl (stopEffect_err_of_some
        { s with pendingStops := s.pendingStops - 1 } e he)
    | tickArrive _ hA => exact Or.inl he
    | spawn _ l hl hp => exact Or.inl he
    | invOk _ g hg => exact Or.inl he
    | invFail _ g e2 hg hex => exact Or.inr (Or.inr ⟨g, e2, rfl, rfl⟩)
    | loopExit _ l hl hc hp => exact Or.inl he
  · intro s u st hA
    cases st with
    | start =>
      unfold startEffect
      split
      · rename_i heq
        rw [hA] at heq
        exact absurd heq (by simp)
      · rfl

theorem task_error_lifecycle_witness :
    (PTInit.err = none ↔ (PTInit.started = false ∨
      (PTInit.tickerActive = true ∧ PTInit.failedSince = false))) ∧
    (ptOver4.err = some .stopped) ∧
    (ptOver5.err = some GoErr.stopped ∨
      ((.invFail 1 (.generic 0) : PTLabel) = .start ∧ ptOver5.err = none) ∨
      (∃ g e2, (.invFail 1 (.generic 0) : PTLabel) = .invFail g e2 ∧
        ptOver5.err = some e2)) ∧
    ((startEffect PTInit).err = none) := by
  refine ⟨?_, ?_, ?_, ?_⟩
  · exact task_error_lifecycle.1 PTInit Relation.ReflTransGen.refl
  · exact task_error_lifecycle.2.1 ptOver3 ptOver4 (PTStep.stopCall ptOver3)
      rfl rfl
  · exact task_error_lifecycle.2.2.1 (.invFail 1 (.generic 0)) ptOver4 ptOver5
      (PTStep.invFail ptOver4 1 (.generic 0) (by decide) (by decide))
      GoErr.stopped rfl
  · exact task_error_lifecycle.2.2.2 PTInit (startEffect PTInit)
      (PTStep.start PTInit) rfl

/-! ### Claim C2 -/

/-! States for witnessing the self-stop theorem. -/

def ptFailW : PTState := ⟨true, 1, false, 0, none, false, 0, [], [1], []⟩

def ptFailW2 : PTState :=
  ⟨true, 1, false, 0, some (.generic 5), true, 1, [], [], []⟩

def ptFailW3 : PTState :=
  ⟨true, 1, false, 0, some (.generic 5), true, 0, [], [], []⟩

/-- **C2** (in its eventual reading).  When a running invocation's
function returns a non-nil error `E` while the invocation's context is
not cancelled:
(1) the failing step records `E` as the task's error and queues one
engine `Stop` (`go pt.Stop()`);
(2) along any subsequent execution with no new `Start` and no other
recorded failure, the error stays `E` — so `Error()` equals `E` from
that point on;
(3) once any queued `Stop` runs, the Tick Source is destroyed;
(4) from any state with no active Tick Source, along executions with
no `Start`: the source stays inactive, no further tick ever arrives,
and the number of spawned invocations is bounded by the ticks already
buffered — hence eventually no invocation is spawned for any
subsequent tick: the task has stopped itself. -/
theorem task_self_stop :
    (∀ s u g e, PTStep (.invFail g e) s u →
      u.err = some e ∧ u.pendingStops = s.pendingStops + 1) ∧
    (∀ s u, PTStep .stopRun s u → u.tickerActive = false) ∧
    (∀ s ls u, PTPath s ls u → ∀ e, s.err = some e →
      (∀ l ∈ ls, l ≠ .start ∧ ∀ g e2, l ≠ .invFail g e2) →
      u.err = some e) ∧
    (∀ s ls u, PTPath s ls u → s.tickerActive = false →
      (∀ l ∈ ls, l ≠ .start) →
      u.tickerActive = false ∧ countTicks ls = 0 ∧
        countSpawns ls + pendingSum u ≤ pendingSum s) := by
  refine ⟨?_, ?_, path_err_preserved, path_quiescent⟩
  · intro s u g e st
    cases st with
    | invFail _ hg hex => exact ⟨rfl, rfl⟩
  · intro s u st
    cases st with
    | stopRun _ hps =>
      exact stopEffect_tickerActive { s with pendingStops := s.pendingStops - 1 }

theorem task_self_stop_witness :
    (ptFailW2.err = some (.generic 5) ∧
      ptFailW2.pendingStops = ptFailW.pendingStops + 1) ∧
    (ptFailW3.tickerActive = false) ∧
    (ptFailW3.err = some (.generic 5)) ∧
    (ptFailW3.tickerActive = false ∧ countTicks [PTLabel.stopRun] = 0 ∧
      countSpawns [PTLabel.stopRun] + pendingSum ptFailW3
        ≤ pendingSum ptFailW2) := by
  have stF : PTStep (.invFail 1 (.generic 5)) ptFailW ptFailW2 :=
    PTStep.invFail ptFailW 1 (.generic 5) (by decide) (by decide)
  have stS : PTStep .stopRun ptFailW2 ptFailW3 :=
    PTStep.stopRun ptFailW2 (by decide)
  have hpath : PTPath ptFailW2 [.stopRun] ptFailW3 :=
    PTPath.cons .stopRun stS (PTPath.nil ptFailW3)
  refine ⟨?_, ?_, ?_, ?_⟩
  · exact task_self_stop.1 ptFailW ptFailW2 1 (.generic 5) stF
  · exact task_self_stop.2.1 ptFailW2 ptFailW3 stS
  · exact task_self_stop.2.2.1 ptFailW2 [.stopRun] ptFailW3 hpath
      (.generic 5) rfl
      (by
        intro l hl
        simp only [List.mem_singleton] at hl
        subst hl
        exact ⟨by decide, fun g e2 h => PTLabel.noConfusion h⟩)
  · exact task_self_stop.2.2.2 ptFailW2 [.stopRun] ptFailW3 hpath rfl
      (by
        intro l hl
        simp only [List.mem_singleton] at hl
        subst hl
        decide)

end Periodic
